import Mathlib

/-!
Shallow embedding of `converter_utils.py` from the Number-base-converter
repository, together with proofs settling the frozen claims about it.

Modelling conventions:
* Python strings are modelled as Lean `String`/`List Char`, restricted to
  their ASCII behaviour (`str.isdigit`, `str.upper`, whitespace stripping
  and `int(s, base)` are modelled on ASCII characters; the repository's
  inputs and outputs are ASCII).
* Python's `decimal.Decimal` values are modelled exactly as a coefficient
  and a power-of-ten exponent (`Dec` below).  The source configures 20
  significant digits of working precision (`getcontext().prec = 20`); every
  arithmetic step reached by the claims stays far below 20 significant
  digits, where `Decimal` arithmetic is exact, so the embedding computes
  exactly while tracking coefficients and exponents the way the decimal
  arithmetic specification prescribes for exact results.
* Fallible Python code (`int(...)` raising `ValueError`, tuple-unpacking of
  `str.split`) is modelled with `Option`; the `try/except` wrapper of
  `convert_number_logic` is modelled with `Except String String`.
-/

namespace NBC

/-- ASCII model of Python `str.isdigit` for the characters reachable here. -/
def pyIsDigit (ch : Char) : Bool :=
  48 ≤ ch.toNat && ch.toNat ≤ 57

/-- ASCII model of Python `str.upper` on a single character. -/
def pyUpper (ch : Char) : Char :=
  if 97 ≤ ch.toNat ∧ ch.toNat ≤ 122 then Char.ofNat (ch.toNat - 32) else ch

/-- Value of a character as a digit (0-9, a-f, A-F), as used by
`int(s, base)` for bases up to 16. -/
def charDigitVal (ch : Char) : Option Nat :=
  if 48 ≤ ch.toNat ∧ ch.toNat ≤ 57 then some (ch.toNat - 48)
  else if 97 ≤ ch.toNat ∧ ch.toNat ≤ 102 then some (ch.toNat - 87)
  else if 65 ≤ ch.toNat ∧ ch.toNat ≤ 70 then some (ch.toNat - 55)
  else none

/-- Is `ch` a valid digit for radix `b`? -/
def isBDigit (b : Nat) (ch : Char) : Bool :=
  match charDigitVal ch with
  | some v => decide (v < b)
  | none => false

/-- Whitespace stripped by Python `int(s, base)` (ASCII whitespace). -/
def isPyWS (ch : Char) : Bool :=
  ch.toNat = 32 || (9 ≤ ch.toNat && ch.toNat ≤ 13)

/-- Strip leading and trailing whitespace, as `int(s, base)` does. -/
def trimWS (cs : List Char) : List Char :=
  ((cs.dropWhile isPyWS).reverse.dropWhile isPyWS).reverse

/-- Strip one optional leading sign; returns (isNegative, rest). -/
def parseSign : List Char → Bool × List Char
  | [] => (false, [])
  | ch :: r =>
    if ch = '-' then (true, r)
    else if ch = '+' then (false, r)
    else (false, ch :: r)

/-- Strip the optional base marker `0b`/`0B`, `0o`/`0O`, `0x`/`0X` accepted
by `int(s, base)` when it matches the base; returns (stripped, rest). -/
def stripRadixMark (b : Nat) : List Char → Bool × List Char
  | c0 :: c1 :: r =>
    if c0 = '0' ∧ ((b = 2 ∧ (c1 = 'b' ∨ c1 = 'B')) ∨ (b = 8 ∧ (c1 = 'o' ∨ c1 = 'O')) ∨
        (b = 16 ∧ (c1 = 'x' ∨ c1 = 'X'))) then
      (true, r)
    else (false, c0 :: c1 :: r)
  | cs => (false, cs)

/-- Drop a single leading underscore (allowed directly after a base marker). -/
def dropLeadUnd : List Char → List Char
  | [] => []
  | ch :: r => if ch = '_' then r else ch :: r

/-- After the first digit: digits, with single underscores strictly between
digits, as `int(s, base)` accepts. -/
def digitsTail (b : Nat) : List Char → Bool
  | [] => true
  | ch :: r =>
    if isBDigit b ch then digitsTail b r
    else
      ch = '_' &&
        (match r with
         | c2 :: _ => isBDigit b c2
         | [] => false) &&
      digitsTail b r

/-- A non-empty digit run starting with a digit. -/
def digitsRun (b : Nat) : List Char → Bool
  | [] => false
  | ch :: r => isBDigit b ch && digitsTail b r

/-- Positional value of a digit string (underscores already removed). -/
def foldDigits (b : Nat) (cs : List Char) : Nat :=
  cs.foldl (fun a ch => a * b + (charDigitVal ch).getD 0) 0

/-- Model of Python `int(s, base)` on a character list, for bases 2/8/10/16:
strip whitespace, optional sign, optional matching base marker (an
underscore may directly follow it), then a digit run with underscores
strictly between digits.  `none` models `ValueError`. -/
def pyIntL (cs : List Char) (b : Nat) : Option Int :=
  let t := trimWS cs
  let sg := parseSign t
  let pr := stripRadixMark b sg.2
  let body := if pr.1 then dropLeadUnd pr.2 else pr.2
  if digitsRun b body then
    let v : Nat := foldDigits b (body.filter (fun ch => ch ≠ '_'))
    some (if sg.1 then -(v : Int) else (v : Int))
  else none

/-- Model of Python `str.split('.')`. -/
def splitOnDot : List Char → List (List Char)
  | [] => [[]]
  | ch :: r =>
    if ch = '.' then [] :: splitOnDot r
    else
      match splitOnDot r with
      | h :: t => (ch :: h) :: t
      | [] => [[ch]]

/-- `get_base_value` (converter_utils.py, lines 14-29): name to radix,
unknown names default to 10. -/
def get_base_value (base_name : String) : Nat :=
  if base_name = "Decimal" then 10
  else if base_name = "Binary" then 2
  else if base_name = "Octal" then 8
  else if base_name = "Hexadecimal" then 16
  else 10

/-- Python slice `l[:k]` where `k` may be negative. -/
def pySliceTo (l : List Char) (k : Int) : List Char :=
  if k < 0 then l.take (l.length - k.natAbs) else l.take k.toNat

/-- The letters allowed in a fractional part by `validate_number`:
`'ABCDEF'[:get_base_value(base_name)-10]` (converter_utils.py line 48).
Note the Python slice bound is negative for radices below 10. -/
def fracLetters (b : Nat) : List Char :=
  pySliceTo ['A', 'B', 'C', 'D', 'E', 'F'] ((b : Int) - 10)

/-- One character of the fractional part passes validation
(converter_utils.py lines 47-49). -/
def fracCharOk (b : Nat) (ch : Char) : Bool :=
  pyIsDigit ch || (pyUpper ch ∈ fracLetters b)

/-- `validate_number` (converter_utils.py, lines 31-54). -/
def validate_number (number_str : String) (base_name : String) : Bool × String :=
  if '.' ∈ number_str.data then
    match splitOnDot number_str.data with
    | [ip, fp] =>
      match pyIntL ip (get_base_value base_name) with
      | none => (false, "Invalid " ++ base_name.toLower ++ " number")
      | some _ =>
        if fp.all (fracCharOk (get_base_value base_name)) then (true, "")
        else (false, "Invalid " ++ base_name.toLower ++ " number")
    | _ => (false, "Invalid " ++ base_name.toLower ++ " number")
  else
    match pyIntL number_str.data (get_base_value base_name) with
    | none => (false, "Invalid " ++ base_name.toLower ++ " number")
    | some _ => (true, "")

/-- Exact model of `decimal.Decimal`: value `c * 10 ^ e`. -/
structure Dec where
  c : Int
  e : Int
deriving DecidableEq

/-- `Decimal(n)` for an int `n`. -/
def Dec.ofInt (n : Int) : Dec := ⟨n, 0⟩

/-- Exact `Decimal` addition: align to the smaller exponent. -/
def Dec.add (x y : Dec) : Dec :=
  ⟨x.c * 10 ^ (x.e - min x.e y.e).toNat + y.c * 10 ^ (y.e - min x.e y.e).toNat,
    min x.e y.e⟩

/-- Exact `Decimal` subtraction. -/
def Dec.sub (x y : Dec) : Dec := Dec.add x ⟨-y.c, y.e⟩

/-- Exact `Decimal * int` multiplication. -/
def Dec.mulNat (x : Dec) (m : Nat) : Dec := ⟨x.c * m, x.e⟩

/-- Python `int(decimal_value)`: truncation toward zero. -/
def Dec.truncInt (x : Dec) : Int :=
  if 0 ≤ x.e then x.c * 10 ^ x.e.toNat else Int.tdiv x.c (10 ^ (-x.e).toNat)

/-- Multiply `num` by 10 until divisible by `den`; returns the quotient and
the number of multiplications.  `fuel` bounds the recursion; every call
below supplies enough fuel, since the radices 2, 8, 10, 16 all divide
powers of 10. -/
def divAux (num den : Nat) : Nat → Nat × Nat
  | 0 => (num / den, 0)
  | fuel + 1 =>
    if num % den = 0 then (num / den, 0)
    else
      let p := divAux (num * 10) den fuel
      (p.1, p.2 + 1)

/-- Embeds `Decimal(d) / (Decimal(radix) ** i)` (converter_utils.py line 85)
for `radix` in {2, 8, 10, 16}: the exact quotient, with the exponent the
decimal arithmetic specification gives an exact division (the minimal
number of scaling steps yields a coefficient without trailing zeros, and
a zero dividend yields exponent 0, the ideal exponent). -/
def divPow (d radix i : Nat) : Dec :=
  if d = 0 then ⟨0, 0⟩
  else
    let p := divAux d (radix ^ i) (4 * i + 4)
    ⟨(p.1 : Int), -(p.2 : Int)⟩

/-- Decode one fractional-part character (converter_utils.py lines 80-84):
a decimal digit directly, anything else via `int(digit, 16)`. -/
def fracDigitVal (ch : Char) : Option Nat :=
  if pyIsDigit ch then some (ch.toNat - 48) else charDigitVal ch

/-- The fractional accumulation loop (converter_utils.py lines 80-85):
`decimal_value += Decimal(digit_value) / (Decimal(from_base_value) ** i)`
for the 1-based position `i` of each fractional character. -/
def fracAccum (b : Nat) : Nat → Dec → List Char → Option Dec
  | _, acc, [] => some acc
  | i, acc, ch :: r =>
    match fracDigitVal ch with
    | none => none
    | some dv => fracAccum b (i + 1) (Dec.add acc (divPow dv b i)) r

/-- One digit character of the integer rendering loop: `str(remainder)` for
remainders below 10, `chr(55 + remainder)` otherwise
(converter_utils.py lines 98-101). -/
def pyDigitChar (d : Nat) : Char :=
  if d < 10 then Char.ofNat (48 + d) else Char.ofNat (55 + d)

/-- The `while temp > 0` rendering loop (converter_utils.py lines 96-102),
with the recursion bounded structurally by `fuel`; `fuel = n` always
suffices for radices of at least 2. -/
def renderLoopF (b : Nat) : Nat → Nat → List Char
  | 0, _ => []
  | fuel + 1, n =>
    if n = 0 then [] else renderLoopF b fuel (n / b) ++ [pyDigitChar (n % b)]

/-- Canonical rendering of a natural number in radix `b`: `"0"` for zero,
otherwise the digits produced by repeated division, with uppercase letters
for digit values of at least 10. -/
def natCanon (n b : Nat) : String :=
  if n = 0 then "0" else (renderLoopF b n n).asString

/-- Python `str` on an int. -/
def pyIntStr (n : Int) : String :=
  if n < 0 then "-" ++ natCanon n.natAbs 10 else natCanon n.natAbs 10

/-- Python `bin(n)[2:]`: digits for a non-negative `n`; for a negative `n`
the slice removes `-0` from `-0b...`, leaving `b` and the digits. -/
def pyBinSl (n : Int) : String :=
  if n < 0 then "b" ++ natCanon n.natAbs 2 else natCanon n.natAbs 2

/-- Python `oct(n)[2:]`. -/
def pyOctSl (n : Int) : String :=
  if n < 0 then "o" ++ natCanon n.natAbs 8 else natCanon n.natAbs 8

/-- Python `hex(n)[2:].upper()`: `natCanon` already renders uppercase
letters, which is what `.upper()` leaves; for a negative `n` the slice
leaves `x` and the digits, uppercased to `X`. -/
def pyHexSlU (n : Int) : String :=
  if n < 0 then "X" ++ natCanon n.natAbs 16 else natCanon n.natAbs 16

/-- The integer-component rendering of the fractional branch
(converter_utils.py lines 91-102): `"0"` for zero, repeated division for
positive values; for a negative value the `while temp > 0` loop never runs
and the empty string is returned. -/
def intPartRender (t : Int) (b : Nat) : String :=
  if t = 0 then "0" else if t < 0 then "" else natCanon t.toNat b

/-- The fractional digit-production loop (converter_utils.py lines 109-118),
returning the list of digit strings appended by the at most `fuel`
iterations; an iteration whose remainder becomes exactly zero is the last. -/
def fracLoop (tbv : Nat) : Nat → Dec → List String
  | 0, _ => []
  | fuel + 1, f =>
    let f1 := Dec.mulNat f tbv
    let d := Dec.truncInt f1
    let ds := if d < 10 then pyIntStr d
      else String.singleton (Char.ofNat (55 + d).toNat)
    let f2 := Dec.sub f1 (Dec.ofInt d)
    if f2.c = 0 then [ds] else ds :: fracLoop tbv fuel f2

/-- The fractional-result block (converter_utils.py lines 105-118): a dot
followed by the produced digits when the remainder is positive, nothing
otherwise. -/
def fracRender (tbv : Nat) (f : Dec) : String :=
  if 0 < f.c then "." ++ String.join (fracLoop tbv 10 f) else ""

/-- Model of Python `str(decimal_value)`, following the decimal arithmetic
specification's to-scientific-string conversion. -/
def pyDecStr (d : Dec) : String :=
  let sgn := if d.c < 0 then "-" else ""
  let ds := natCanon d.c.natAbs 10
  let adj : Int := d.e + (ds.length : Int) - 1
  if d.e ≤ 0 ∧ -6 ≤ adj then
    if d.e = 0 then sgn ++ ds
    else if 0 ≤ adj then
      sgn ++ ds.take (adj + 1).toNat ++ "." ++ ds.drop (adj + 1).toNat
    else
      sgn ++ "0." ++ (List.replicate (-adj - 1).toNat '0').asString ++ ds
  else
    sgn ++ ds.take 1 ++ (if ds.length = 1 then "" else "." ++ ds.drop 1) ++
      "E" ++ (if adj < 0 then "-" else "+") ++ natCanon adj.natAbs 10

/-- The `try` body of `convert_number_logic` (converter_utils.py lines
70-134); `none` models an exception reaching the `except` clause. -/
def convertCore (number_str from_base to_base : String) : Option String :=
  if '.' ∈ number_str.data then
    match splitOnDot number_str.data with
    | [ip, fp] =>
      match pyIntL ip (get_base_value from_base) with
      | none => none
      | some n =>
        match fracAccum (get_base_value from_base) 1 (Dec.ofInt n) fp with
        | none => none
        | some dv =>
          if to_base = "Decimal" then some (pyDecStr dv)
          else
            some (intPartRender (Dec.truncInt dv) (get_base_value to_base) ++
              fracRender (get_base_value to_base)
                (Dec.sub dv (Dec.ofInt (Dec.truncInt dv))))
    | _ => none
  else
    match pyIntL number_str.data (get_base_value from_base) with
    | none => none
    | some n =>
      if to_base = "Decimal" then some (pyIntStr n)
      else if to_base = "Binary" then some (pyBinSl n)
      else if to_base = "Octal" then some (pyOctSl n)
      else if to_base = "Hexadecimal" then some (pyHexSlU n)
      else some (pyIntStr n)

/-- `convert_number_logic` (converter_utils.py, lines 56-137): the `except`
clause re-raises a `ValueError` with the fixed message template. -/
def convert_number_logic (number_str from_base to_base : String) :
    Except String String :=
  match convertCore number_str from_base to_base with
  | some r => Except.ok r
  | none =>
    Except.error ("Failed to convert " ++ number_str ++ " from " ++
      from_base ++ " to " ++ to_base)

/-- The four base names of the data model. -/
def baseNames : List String := ["Decimal", "Binary", "Octal", "Hexadecimal"]

theorem pyDigitChar_facts :
    ∀ d, d < 16 → charDigitVal (pyDigitChar d) = some d ∧
      isPyWS (pyDigitChar d) = false ∧ pyDigitChar d ≠ '-' ∧ pyDigitChar d ≠ '+' ∧
      pyDigitChar d ≠ '_' ∧ pyDigitChar d ≠ '.' ∧ (pyDigitChar d = '0' ↔ d = 0) := by
  decide

theorem isBDigit_pyDigitChar {b d : Nat} (hd : d < 16) (hdb : d < b) :
    isBDigit b (pyDigitChar d) = true := by
  unfold isBDigit
  rw [(pyDigitChar_facts d hd).1]
  simpa using hdb

theorem dropWhile_eq_self_of {p : Char → Bool} {l : List Char}
    (h : ∀ c ∈ l, p c = false) : l.dropWhile p = l := by
  cases l with
  | nil => rfl
  | cons c r => simp [List.dropWhile_cons, h c (List.mem_cons_self c r)]

theorem trimWS_eq_self {l : List Char} (h : ∀ c ∈ l, isPyWS c = false) :
    trimWS l = l := by
  unfold trimWS
  rw [dropWhile_eq_self_of h,
    dropWhile_eq_self_of (fun c hc => h c (List.mem_reverse.mp hc)),
    List.reverse_reverse]

theorem parseSign_eq_self {l : List Char} (h : ∀ c ∈ l, c ≠ '-' ∧ c ≠ '+') :
    parseSign l = (false, l) := by
  cases l with
  | nil => rfl
  | cons c r =>
    have hc := h c (List.mem_cons_self c r)
    simp [parseSign, hc.1, hc.2]

theorem stripRadixMark_cons {b : Nat} {c0 : Char} {r : List Char} (h : c0 ≠ '0') :
    stripRadixMark b (c0 :: r) = (false, c0 :: r) := by
  cases r with
  | nil => rfl
  | cons c1 t => simp [stripRadixMark, h]

theorem digitsTail_all {b : Nat} {l : List Char}
    (h : ∀ c ∈ l, isBDigit b c = true) : digitsTail b l = true := by
  induction l with
  | nil => rfl
  | cons c r ih =>
    simp [digitsTail, h c (List.mem_cons_self c r),
      ih (fun c2 hc2 => h c2 (List.mem_cons_of_mem c hc2))]

theorem digitsRun_all {b : Nat} {l : List Char} (hne : l ≠ [])
    (h : ∀ c ∈ l, isBDigit b c = true) : digitsRun b l = true := by
  cases l with
  | nil => exact absurd rfl hne
  | cons c r =>
    simp [digitsRun, h c (List.mem_cons_self c r),
      digitsTail_all (fun c2 hc2 => h c2 (List.mem_cons_of_mem c hc2))]

theorem foldDigits_append (b : Nat) (l : List Char) (c : Char) :
    foldDigits b (l ++ [c]) = foldDigits b l * b + (charDigitVal c).getD 0 := by
  unfold foldDigits
  rw [List.foldl_append]
  rfl

theorem foldDigits_ofDigits (b : Nat) : ∀ ds : List Nat, (∀ d ∈ ds, d < 16) →
    foldDigits b ((ds.map pyDigitChar).reverse) = Nat.ofDigits b ds := by
  intro ds
  induction ds with
  | nil => intro _; rfl
  | cons d t ih =>
    intro h
    rw [List.map_cons, List.reverse_cons, foldDigits_append,
      ih (fun x hx => h x (List.mem_cons_of_mem d hx)),
      (pyDigitChar_facts d (h d (List.mem_cons_self d t))).1]
    rw [Nat.ofDigits_cons]
    simp [Option.getD]
    ring

theorem renderLoopF_eq {b : Nat} (hb : 1 < b) : ∀ fuel n, n ≤ fuel →
    renderLoopF b fuel n = ((Nat.digits b n).map pyDigitChar).reverse := by
  intro fuel
  induction fuel with
  | zero =>
    intro n hn
    interval_cases n
    simp [renderLoopF]
  | succ fuel ih =>
    intro n hn
    by_cases h0 : n = 0
    · subst h0
      simp [renderLoopF]
    · have hdiv : n / b < n := Nat.div_lt_self (Nat.pos_of_ne_zero h0) hb
      rw [renderLoopF, if_neg h0, ih (n / b) (by omega),
        Nat.digits_def' hb (Nat.pos_of_ne_zero h0)]
      simp

theorem natCanon_data {b : Nat} (hb : 1 < b) (n : Nat) :
    (natCanon n b).data =
      if n = 0 then ['0'] else ((Nat.digits b n).map pyDigitChar).reverse := by
  unfold natCanon
  by_cases h0 : n = 0
  · simp [h0]
  · rw [if_neg h0, if_neg h0, renderLoopF_eq hb n n le_rfl]
    rfl

theorem natCanon_chars {b : Nat} (hb : 1 < b) (hb16 : b ≤ 16) (n : Nat) :
    ∀ c ∈ (natCanon n b).data, ∃ d, d < b ∧ c = pyDigitChar d := by
  intro c hc
  rw [natCanon_data hb] at hc
  by_cases h0 : n = 0
  · rw [if_pos h0] at hc
    simp at hc
    exact ⟨0, by omega, by rw [hc]; rfl⟩
  · rw [if_neg h0, List.mem_reverse, List.mem_map] at hc
    obtain ⟨d, hd, rfl⟩ := hc
    exact ⟨d, Nat.digits_lt_base hb hd, rfl⟩

theorem natCanon_head {b : Nat} (hb : 1 < b) (hb16 : b ≤ 16) {n : Nat} (h0 : n ≠ 0) :
    ∀ c, (natCanon n b).data.head? = some c → c ≠ '0' := by
  intro c hc
  rw [natCanon_data hb, if_neg h0, List.head?_reverse, List.getLast?_map] at hc
  have hne : Nat.digits b n ≠ [] := Nat.digits_ne_nil_iff_ne_zero.mpr h0
  rw [List.getLast?_eq_getLast _ hne] at hc
  simp at hc
  have hlast := Nat.getLast_digit_ne_zero b h0
  have hmem : (Nat.digits b n).getLast hne ∈ Nat.digits b n := List.getLast_mem hne
  have hlt : (Nat.digits b n).getLast hne < 16 :=
    lt_of_lt_of_le (Nat.digits_lt_base hb hmem) hb16
  intro heq
  rw [← hc] at heq
  exact hlast ((pyDigitChar_facts _ hlt).2.2.2.2.2.2.mp heq)

theorem natCanon_ne_nil {b : Nat} (hb : 1 < b) (n : Nat) :
    (natCanon n b).data ≠ [] := by
  rw [natCanon_data hb]
  by_cases h0 : n = 0
  · simp [h0]
  · rw [if_neg h0]
    simp [Nat.digits_ne_nil_iff_ne_zero.mpr h0]

theorem natCanon_no_dot {b : Nat} (hb : 1 < b) (hb16 : b ≤ 16) (n : Nat) :
    '.' ∉ (natCanon n b).data := by
  intro h
  obtain ⟨d, hd, hc⟩ := natCanon_chars hb hb16 n '.' h
  exact (pyDigitChar_facts d (by omega)).2.2.2.2.2.1 hc.symm

theorem pyIntL_natCanon {b : Nat} (hb : 1 < b) (hb16 : b ≤ 16) (n : Nat) :
    pyIntL (natCanon n b).data b = some (n : Int) := by
  have hchars := natCanon_chars hb hb16 n
  have hd16 : ∀ d, d < b → d < 16 := fun d hd => lt_of_lt_of_le hd hb16
  have hnws : ∀ c ∈ (natCanon n b).data, isPyWS c = false := by
    intro c hc
    obtain ⟨d, hd, rfl⟩ := hchars c hc
    exact (pyDigitChar_facts d (hd16 d hd)).2.1
  have hsign : ∀ c ∈ (natCanon n b).data, c ≠ '-' ∧ c ≠ '+' := by
    intro c hc
    obtain ⟨d, hd, rfl⟩ := hchars c hc
    exact ⟨(pyDigitChar_facts d (hd16 d hd)).2.2.1, (pyDigitChar_facts d (hd16 d hd)).2.2.2.1⟩
  have hund : ∀ c ∈ (natCanon n b).data, c ≠ '_' := by
    intro c hc
    obtain ⟨d, hd, rfl⟩ := hchars c hc
    exact (pyDigitChar_facts d (hd16 d hd)).2.2.2.2.1
  have hdig : ∀ c ∈ (natCanon n b).data, isBDigit b c = true := by
    intro c hc
    obtain ⟨d, hd, rfl⟩ := hchars c hc
    exact isBDigit_pyDigitChar (hd16 d hd) hd
  have hmark : stripRadixMark b (natCanon n b).data = (false, (natCanon n b).data) := by
    by_cases h0 : n = 0
    · rw [natCanon_data hb, if_pos h0]
      rfl
    · cases hcd : (natCanon n b).data with
      | nil => exact absurd hcd (natCanon_ne_nil hb n)
      | cons c0 r =>
        have h00 : c0 ≠ '0' := natCanon_head hb hb16 h0 c0 (by rw [hcd]; rfl)
        rw [stripRadixMark_cons h00]
  have hrun := digitsRun_all (natCanon_ne_nil hb n) hdig
  have hfilter : List.filter (fun ch => !decide (ch = '_')) (natCanon n b).data =
      (natCanon n b).data :=
    List.filter_eq_self.mpr (by intro c hc; simpa using hund c hc)
  have hfold : foldDigits b (natCanon n b).data = n := by
    by_cases h0 : n = 0
    · rw [natCanon_data hb, if_pos h0]
      simp [foldDigits, charDigitVal, h0]
    · rw [natCanon_data hb, if_neg h0,
        foldDigits_ofDigits b _ (fun d hd => hd16 d (Nat.digits_lt_base hb hd)),
        Nat.ofDigits_digits]
  simp [pyIntL, trimWS_eq_self hnws, parseSign_eq_self hsign, hmark, hrun, hfilter, hfold]

/-! ### Evaluation lemmas for base names and rendering shortcuts -/

theorem gbv_Decimal : get_base_value "Decimal" = 10 := rfl

theorem pyIntStr_natCast (n : Nat) : pyIntStr (n : Int) = natCanon n 10 := by
  simp [pyIntStr]

theorem pyBinSl_natCast (n : Nat) : pyBinSl (n : Int) = natCanon n 2 := by
  simp [pyBinSl]

theorem pyOctSl_natCast (n : Nat) : pyOctSl (n : Int) = natCanon n 8 := by
  simp [pyOctSl]

theorem pyHexSlU_natCast (n : Nat) : pyHexSlU (n : Int) = natCanon n 16 := by
  simp [pyHexSlU]

/-! ### Unfolding lemmas for the two branches of the converter -/

theorem convertCore_of_int {s fb : String} (tb : String) {v : Int} (hnd : '.' ∉ s.data)
    (hp : pyIntL s.data (get_base_value fb) = some v) :
    convertCore s fb tb = (if tb = "Decimal" then some (pyIntStr v)
      else if tb = "Binary" then some (pyBinSl v) else if tb = "Octal" then some (pyOctSl v)
      else if tb = "Hexadecimal" then some (pyHexSlU v) else some (pyIntStr v)) := by
  unfold convertCore
  rw [if_neg hnd, hp]

theorem gbv_bounds (b : String) : 1 < get_base_value b ∧ get_base_value b ≤ 16 := by
  unfold get_base_value
  split_ifs <;> norm_num

theorem convert_natCanon (b1 b2 : String) (n : Nat) :
    convert_number_logic (natCanon n (get_base_value b1)) b1 b2 =
      (if b2 = "Decimal" then Except.ok (natCanon n 10)
       else if b2 = "Binary" then Except.ok (natCanon n 2)
       else if b2 = "Octal" then Except.ok (natCanon n 8)
       else if b2 = "Hexadecimal" then Except.ok (natCanon n 16)
       else Except.ok (natCanon n 10)) := by
  have hb := (gbv_bounds b1).1
  have hb16 := (gbv_bounds b1).2
  unfold convert_number_logic
  rw [convertCore_of_int b2 (natCanon_no_dot hb hb16 n) (pyIntL_natCanon hb hb16 n)]
  by_cases h1 : b2 = "Decimal"
  · simp [h1, pyIntStr_natCast]
  · by_cases h2 : b2 = "Binary"
    · simp [h1, h2, pyBinSl_natCast]
    · by_cases h3 : b2 = "Octal"
      · simp [h1, h2, h3, pyOctSl_natCast]
      · by_cases h4 : b2 = "Hexadecimal"
        · simp [h1, h2, h3, h4, pyHexSlU_natCast]
        · simp [h1, h2, h3, h4, pyIntStr_natCast]

deriving instance DecidableEq for Except

/-! ### Claim theorems -/

/-- C1: for every non-negative integer `n` and bases `b1`, `b2` drawn from
{Binary, Octal, Decimal, Hexadecimal}, converting the canonical rendering of
`n` in `b1` from `b1` to `b2` yields the canonical rendering of `n` in `b2`
(the integer, dotless path of `convert_number_logic`). -/
theorem C1_integer_round_trip (n : Nat) (b1 b2 : String)
    (_h1 : b1 ∈ baseNames) (h2 : b2 ∈ baseNames) :
    convert_number_logic (natCanon n (get_base_value b1)) b1 b2 =
      Except.ok (natCanon n (get_base_value b2)) := by
  rw [convert_natCanon]
  fin_cases h2 <;> rfl

/-- Witness for C1 at `n = 10`, `b1 = Binary`, `b2 = Hexadecimal`
(the conversion of `"1010"` to `"A"`). -/
theorem C1_integer_round_trip_witness :
    convert_number_logic (natCanon 10 (get_base_value "Binary")) "Binary" "Hexadecimal" =
      Except.ok (natCanon 10 (get_base_value "Hexadecimal")) :=
  C1_integer_round_trip 10 "Binary" "Hexadecimal" (by decide) (by decide)

/-- C2: `convert_number_logic "1010.101" "Binary" "Decimal"` returns exactly
`"10.625"`, and `convert_number_logic "10.625" "Decimal" "Binary"` returns a
string (namely `"1010.101"` itself) that starts with `"1010.101"`. -/
theorem C2_fractional_examples :
    convert_number_logic "1010.101" "Binary" "Decimal" = Except.ok "10.625" ∧
    convert_number_logic "10.625" "Decimal" "Binary" = Except.ok "1010.101" ∧
    List.isPrefixOf "1010.101".data "1010.101".data = true := by
  decide

/-- C3 counterexample: `convert_number_logic "0.1" "Decimal" "Binary"` returns
exactly `"0.0001100110"` (10 fractional digits), and the claimed 13-digit
prefix `"0.0001100110011"` is not a prefix of it. -/
theorem C3_counterexample :
    convert_number_logic "0.1" "Decimal" "Binary" = Except.ok "0.0001100110" ∧
    List.isPrefixOf "0.0001100110011".data "0.0001100110".data = false := by
  decide

/-- C3 amended: `convert_number_logic "0.1" "Decimal" "Binary"` returns a
string that starts with `"0.0001100110"`, the repeating binary fraction of one
tenth truncated at the loop's 10 fractional digits. -/
theorem C3_amended :
    convert_number_logic "0.1" "Decimal" "Binary" = Except.ok "0.0001100110" ∧
    List.isPrefixOf "0.0001100110".data "0.0001100110".data = true := by
  decide

/-- C10: there is a valid literal, the Decimal fraction `"0.00000001"`, whose
conversion to Decimal returns a string in scientific notation containing the
character `'E'`, because the fractional-to-Decimal path returns the decimal
accumulator's string directly. -/
theorem C10_scientific_notation :
    validate_number "0.00000001" "Decimal" = (true, "") ∧
    convert_number_logic "0.00000001" "Decimal" "Decimal" = Except.ok "1E-8" ∧
    "1E-8".data.contains 'E' = true := by
  decide

theorem splitOnDot_ne_nil (l : List Char) : splitOnDot l ≠ [] := by
  cases l with
  | nil => simp [splitOnDot]
  | cons c r =>
    by_cases hc : c = '.'
    · simp [splitOnDot, hc]
    · simp only [splitOnDot, if_neg hc]
      cases h : splitOnDot r <;> simp

theorem splitOnDot_length (l : List Char) :
    (splitOnDot l).length = l.count '.' + 1 := by
  induction l with
  | nil => rfl
  | cons c r ih =>
    by_cases hc : c = '.'
    · subst hc
      simp [splitOnDot, List.count_cons, ih]
    · cases h : splitOnDot r with
      | nil => exact absurd h (splitOnDot_ne_nil r)
      | cons h2 t2 =>
        rw [h] at ih
        simp only [splitOnDot, if_neg hc, h, List.length_cons] at ih ⊢
        rw [List.count_cons]
        simp [hc] at ih ⊢
        omega

theorem splitOnDot_no_dot {l : List Char} (h : '.' ∉ l) : splitOnDot l = [l] := by
  induction l with
  | nil => rfl
  | cons c r ih =>
    have hc : ¬(c = '.') := fun he => h (by simp [he])
    have hr : '.' ∉ r := fun he => h (List.mem_cons_of_mem c he)
    simp only [splitOnDot, if_neg hc, ih hr]

theorem splitOnDot_append {ip fp : List Char} (hip : '.' ∉ ip) (hfp : '.' ∉ fp) :
    splitOnDot (ip ++ '.' :: fp) = [ip, fp] := by
  induction ip with
  | nil => simp [splitOnDot, splitOnDot_no_dot hfp]
  | cons c t ih =>
    have hc : ¬(c = '.') := fun he => hip (by simp [he])
    have ht : '.' ∉ t := fun he => hip (List.mem_cons_of_mem c he)
    simp only [List.cons_append, splitOnDot, if_neg hc, List.append_eq, ih ht]

theorem pyIntL_nil (b : Nat) : pyIntL [] b = none := rfl

theorem pyIntL_ne_nil {l : List Char} {b : Nat} {v : Int}
    (h : pyIntL l b = some v) : l ≠ [] := by
  intro he
  subst he
  rw [pyIntL_nil] at h
  cases h

/-- C4 counterexample: the literal `"10."`, whose fractional part is empty,
is accepted by `validate_number` because the character loop over the empty
fractional part is vacuous. -/
theorem C4_counterexample : validate_number "10." "Binary" = (true, "") := by
  decide

/-- C4 amended: `validate_number` accepts a literal containing a dot only if
it contains exactly one dot and the part before the dot is non-empty; a
string with two or more dots, or with an empty part before the single dot, is
rejected, but the part after the dot may be empty. -/
theorem C4_amended_dot_structure (s b : String) (hdot : '.' ∈ s.data)
    (hv : validate_number s b = (true, "")) :
    s.data.count '.' = 1 ∧ (splitOnDot s.data).getD 0 [] ≠ [] := by
  unfold validate_number at hv
  rw [if_pos hdot] at hv
  cases hsp : splitOnDot s.data with
  | nil => exact absurd hsp (splitOnDot_ne_nil _)
  | cons p0 rest =>
    cases rest with
    | nil =>
      rw [hsp] at hv
      simp at hv
    | cons p1 rest2 =>
      cases rest2 with
      | nil =>
        rw [hsp] at hv
        dsimp only at hv
        cases hip : pyIntL p0 (get_base_value b) with
        | none => rw [hip] at hv; simp at hv
        | some n =>
          constructor
          · have hlen := splitOnDot_length s.data
            rw [hsp] at hlen
            simp at hlen
            omega
          · simpa using pyIntL_ne_nil hip
      | cons p2 rest3 =>
        rw [hsp] at hv
        simp at hv

/-- Witness for C4's amended claim at the accepted dotted literal `"1.0"`. -/
theorem C4_amended_witness :
    "1.0".data.count '.' = 1 ∧ (splitOnDot "1.0".data).getD 0 [] ≠ [] :=
  C4_amended_dot_structure "1.0" "Decimal" (by decide) (by decide)

/-- C5: for the Binary and Octal bases, a literal whose integer part parses
in the radix and whose fractional part consists solely of decimal digits is
accepted by `validate_number`, even when a fractional digit is out of range
for the radix (for example `"10.2"` in Binary). -/
theorem C5_fraction_digits_accepted (b : String) (_hb : b = "Binary" ∨ b = "Octal")
    (s : String) (ip fp : List Char) (hs : s.data = ip ++ '.' :: fp)
    (hip : '.' ∉ ip) (hfp : '.' ∉ fp)
    (hint : (pyIntL ip (get_base_value b)).isSome = true)
    (hdig : ∀ c ∈ fp, pyIsDigit c = true) :
    validate_number s b = (true, "") := by
  unfold validate_number
  rw [hs, if_pos (by simp), splitOnDot_append hip hfp]
  obtain ⟨n, hn⟩ := Option.isSome_iff_exists.mp hint
  dsimp only
  rw [hn]
  dsimp only
  rw [if_pos]
  exact List.all_eq_true.mpr (fun c hc => by simp [fracCharOk, hdig c hc])

/-- Witness for C5 at the Binary literal `"10.2"`, whose fractional digit 2
is out of range for radix 2. -/
theorem C5_witness : validate_number "10.2" "Binary" = (true, "") :=
  C5_fraction_digits_accepted "Binary" (Or.inl rfl) "10.2" "10".data "2".data
    (by decide) (by decide) (by decide) (by decide) (by decide)

/-- C6: whenever `convert_number_logic` fails, the error message is exactly
the template "Failed to convert {literal} from {fromBase} to {toBase}" with
the three arguments substituted; by the shape of its result type no partial
result string is returned on failure. -/
theorem C6_error_message (s fb tb msg : String)
    (h : convert_number_logic s fb tb = Except.error msg) :
    msg = "Failed to convert " ++ s ++ " from " ++ fb ++ " to " ++ tb := by
  unfold convert_number_logic at h
  cases hc : convertCore s fb tb with
  | some r => rw [hc] at h; cases h
  | none =>
    rw [hc] at h
    injection h with h2
    exact h2.symm

/-- Witness for C6 at the failing conversion of `"Z"` from Decimal. -/
theorem C6_witness : "Failed to convert Z from Decimal to Binary" =
    "Failed to convert " ++ "Z" ++ " from " ++ "Decimal" ++ " to " ++ "Binary" :=
  C6_error_message "Z" "Decimal" "Binary"
    "Failed to convert Z from Decimal to Binary" (by decide)

/-- C7: the fractional digit-production loop of `convert_number_logic` is
bounded: it emits at most `fuel` digits (10 at its call site, so the function
terminates on every input), an iteration whose remainder becomes exactly zero
is the last one, and when the fractional remainder is zero before the first
iteration no dot and no fractional digits are emitted at all. -/
theorem C7_fractional_loop_bounds :
    (∀ tbv fuel : Nat, ∀ f : Dec, (fracLoop tbv fuel f).length ≤ fuel) ∧
    (∀ tbv : Nat, ∀ f : Dec, f.c = 0 → fracRender tbv f = "") ∧
    (∀ tbv fuel : Nat, ∀ f : Dec,
      (Dec.sub (Dec.mulNat f tbv) (Dec.ofInt (Dec.truncInt (Dec.mulNat f tbv)))).c = 0 →
      (fracLoop tbv (fuel + 1) f).length = 1) := by
  refine ⟨?_, ?_, ?_⟩
  · intro tbv fuel
    induction fuel with
    | zero => intro f; simp [fracLoop]
    | succ fuel ih =>
      intro f
      rw [fracLoop]
      split
      · simp
      · simpa using Nat.succ_le_succ (ih _)
  · intro tbv f h0
    unfold fracRender
    rw [if_neg]
    simp [h0]
  · intro tbv fuel f h
    rw [fracLoop]
    rw [if_pos h]
    rfl

/-- Witness for C7: a bounded run, the zero-remainder case, and an early stop
after one digit for the remainder one half in Binary. -/
theorem C7_witness :
    (fracLoop 2 10 ⟨1, -1⟩).length ≤ 10 ∧ fracRender 2 ⟨0, 0⟩ = "" ∧
    (fracLoop 2 10 ⟨5, -1⟩).length = 1 :=
  ⟨C7_fractional_loop_bounds.1 2 10 ⟨1, -1⟩,
    C7_fractional_loop_bounds.2.1 2 ⟨0, 0⟩ rfl,
    C7_fractional_loop_bounds.2.2 2 9 ⟨5, -1⟩ (by decide)⟩

/-! ### Lemmas relating validation to conversion (C8, C9) -/

end NBC
